import Mathlib

/-!
# Verification of the astro-htaccess directive synthesizer

A shallow embedding of `src/htaccess.ts`: the rule-collection and
textual-directive synthesis algorithm that merges four rule sources
(custom passthrough lines, user error pages, generator-discovered error
pages and redirects, user redirects) into one ordered directive list.

Strings are modelled by Lean `String` / `List Char`; JavaScript template
literals become string concatenation; the mutable `error` flag and the
`handledErrorCodes` set are threaded explicitly as a `GenState`.
-/

set_option autoImplicit false

namespace AstroHtaccess

/-! ## Data model (the `Config` interface and Astro route inputs) -/

/-- `RedirectCode` from the source:
`"permanent" | 301 | "temp" | 302 | "seeother" | 303 | "gone" | 410`.
Each constructor is one of the eight literal values of the union type. -/
inductive RedirectCode where
  | permanent
  | c301
  | temp
  | c302
  | seeother
  | c303
  | gone
  | c410
deriving DecidableEq, Repr

/-- How a `RedirectCode` value prints inside a JS template literal:
the string literals print verbatim, the numeric literals in decimal. -/
def RedirectCode.render : RedirectCode → String
  | .permanent => "permanent"
  | .c301 => "301"
  | .temp => "temp"
  | .c302 => "302"
  | .seeother => "seeother"
  | .c303 => "303"
  | .gone => "gone"
  | .c410 => "410"

/-- The `match` field of a redirect rule: `string | RegExp`.  A `RegExp`
object is only ever consumed through `toString()` (which yields
`/source/` including the enclosing delimiters), so it is modelled by
that string. -/
inductive MatchValue where
  | str (s : String)
  | regex (toStr : String)
deriving DecidableEq, Repr

/-- One element of `Config.redirects`:
`{ code?: RedirectCode; match: string | RegExp; url: string }`. -/
structure RedirectRule where
  code : Option RedirectCode
  mtch : MatchValue
  url : String
deriving DecidableEq, Repr

/-- One element of `Config.errorPages`: `{ code: ErrorCode; document: string }`.
The TS `ErrorCode` type is a fixed enumeration of HTTP error statuses;
it is modelled by `Nat`, which subsumes every literal of that union. -/
structure ErrorPageRule where
  code : Nat
  document : String
deriving DecidableEq, Repr

/-- Astro's `RouteData.redirect` field: `string | { destination: string; ... }`. -/
inductive RedirectTarget where
  | plain (s : String)
  | withDestination (destination : String)
deriving DecidableEq, Repr

/-- Astro's `RouteData.type`; the `switch` in the source handles
`"redirect"` and `"page"`, every other type falls through. -/
inductive RouteKind where
  | page
  | redirect
  | other
deriving DecidableEq, Repr

/-- The part of Astro's `RouteData` read by the integration. -/
structure RouteData where
  type : RouteKind
  route : String
  redirect : Option RedirectTarget
deriving DecidableEq, Repr

/-- The `Config` interface.  `generateHtaccessFile` may be a boolean or a
(sync or async) boolean-producing function; the integration only ever
awaits/reads one boolean from it, so it is modelled by the resolved
boolean, with `none` for an absent option. -/
structure Config where
  generateHtaccessFile : Option Bool := none
  errorPages : Option (List ErrorPageRule) := none
  redirects : Option (List RedirectRule) := none
  customRules : Option (List String) := none

/-! ## String helpers on `List Char` -/

/-- JS `String.prototype.endsWith` on character lists. -/
def endsWithL (cs suffix : List Char) : Bool :=
  decide (suffix.length ≤ cs.length ∧ cs.drop (cs.length - suffix.length) = suffix)

/-- The characters of the `".html"` suffix. -/
def htmlExt : List Char := ['.', 'h', 't', 'm', 'l']

/-! ## `path.posix.join("/", p)`

The source normalizes user error documents with `pathPosix.join("/", p)`.
Node's `path.posix.join` concatenates its (nonempty) arguments with `/`
and normalizes the result; since the first argument is `"/"`, the input
to normalization is the absolute path `"//" ++ p` (or `"/"` when `p` is
empty).  `path.posix.normalize` on an absolute path splits on `/`,
drops empty and `"."` segments, lets `".."` pop the previous kept
segment (above-root `".."` is dropped), rejoins with `/`, prepends the
root `/`, and restores a trailing slash if the input had one. -/

/-- Split a character list on `'/'` (boundaries produce empty segments,
exactly like JS `"..".split("/")`). -/
def splitSlash : List Char → List (List Char)
  | [] => [[]]
  | c :: rest =>
    if c = '/' then [] :: splitSlash rest
    else
      match splitSlash rest with
      | [] => [[c]]
      | s :: ss => (c :: s) :: ss

/-- Process the segments of an absolute posix path: skip empty and `"."`
segments, let `".."` pop the previously kept segment (or vanish at the
root), keep everything else.  `acc` holds kept segments in reverse. -/
def resolveSegs : List (List Char) → List (List Char) → List (List Char)
  | [], acc => acc.reverse
  | s :: rest, acc =>
    if s = [] ∨ s = ['.'] then resolveSegs rest acc
    else if s = ['.', '.'] then resolveSegs rest (acc.drop 1)
    else resolveSegs rest (s :: acc)

/-- Rejoin segments with `'/'`. -/
def joinSegs : List (List Char) → List Char
  | [] => []
  | [s] => s
  | s :: rest => s ++ '/' :: joinSegs rest

/-- `path.posix.normalize` restricted to absolute inputs (every call
site passes a path that starts with `'/'`). -/
def posixNormalizeAbs (cs : List Char) : List Char :=
  let body := joinSegs (resolveSegs (splitSlash cs) [])
  if body = [] then ['/']
  else if cs.getLast? = some '/' then '/' :: (body ++ ['/'])
  else '/' :: body

/-- `path.posix.join("/", p)` on character lists. -/
def posixJoinRoot (p : List Char) : List Char :=
  if p = [] then ['/'] else posixNormalizeAbs ('/' :: '/' :: p)

/-- The document normalization of the user error-page source
(line 111 of the source):
`pathPosix.join("/", document.endsWith(".html") ? document : document + ".html")`. -/
def normalizeDocument (document : String) : String :=
  String.mk (posixJoinRoot
    (if endsWithL document.data htmlExt then document.data
     else document.data ++ htmlExt))

/-- A path segment that `resolveSegs` always keeps unchanged: nonempty,
not `"."`, not `".."`, and containing no slash. -/
def CleanSeg (s : List Char) : Prop :=
  s ≠ [] ∧ s ≠ ['.'] ∧ s ≠ ['.', '.'] ∧ '/' ∉ s

/-! ## Regex-to-Apache translation (user redirect source, lines 156-166)

`match.toString().slice(1, -1)` strips the `/` delimiters;
`.replaceAll("\\/", "/")` unescapes forward slashes;
`.replaceAll(spaceInCharacterMatchingRegex, "$1(?:[$2$3]|%20)")` rewrites a
bracket expression containing a space; `.replaceAll(" ", "%20")` escapes the
remaining spaces. -/

/-- JS `.replaceAll("\\/", "/")`: scan left to right, replacing each
(non-overlapping) occurrence of backslash-slash by a slash. -/
def unescapeSlashes : List Char → List Char
  | '\\' :: '/' :: rest => '/' :: unescapeSlashes rest
  | c :: rest => c :: unescapeSlashes rest
  | [] => []

/-- JS `.replaceAll(" ", "%20")`. -/
def escapeSpaces : List Char → List Char
  | [] => []
  | c :: rest =>
    if c = ' ' then '%' :: '2' :: '0' :: escapeSpaces rest
    else c :: escapeSpaces rest

/-- Index of the last `']'` in a character list, if any.  This is where
the backtracking greedy group `((?:\\\]|[^ ])*)\]` ends: the group can
absorb any non-space characters, so the closing `\]` binds to the last
`']'` of the non-space run. -/
def lastCloseIdx : List Char → Option Nat
  | [] => none
  | c :: rest =>
    match lastCloseIdx rest with
    | some j => some (j + 1)
    | none => if c = ']' then some 0 else none

/-- The replacement template `"$1(?:[$2$3]|%20)"` instantiated with the
three capture groups. -/
def mkRep (g1 a b : List Char) : List Char :=
  g1 ++ "(?:[".data ++ a ++ b ++ "]|%20)".data

/-- Match the part of `spaceInCharacterMatchingRegex` after the literal
`'['`: `((?:\\\]|[^ ])*) ((?:\\\]|[^ ])*)\]`.  Group 2 is the non-space
run before the literal space (it cannot backtrack shorter, since every
shorter split faces a non-space character where the literal space is
required); group 3 is the following non-space run cut at its last `']'`
(greedy with backtracking).  Returns the two groups and the number of
characters consumed after the `'['`. -/
def bracketTry (rest : List Char) : Option (List Char × List Char × Nat) :=
  let a := rest.takeWhile (fun c => c ≠ ' ')
  match rest.dropWhile (fun c => c ≠ ' ') with
  | ' ' :: rest3 =>
    let r := rest3.takeWhile (fun c => c ≠ ' ')
    match lastCloseIdx r with
    | some j => some (a, r.take j, a.length + 1 + (j + 1))
    | none => none
  | _ => none

/-- Try to match `([^\\]|^)\[((?:\\\]|[^ ])*) ((?:\\\]|[^ ])*)\]` at the
current position.  The `[^\\]` alternative of group 1 (one char that is
not a backslash, immediately followed by `'['`) is tried before the `^`
alternative (empty, only at the very start of the string — the regex has
no `m` flag).  Returns the replacement text and the matched length. -/
def tryMatch (cs : List Char) (atStart : Bool) : Option (List Char × Nat) :=
  let anchor : Option (List Char × Nat) :=
    if atStart then
      match cs with
      | '[' :: rest =>
        match bracketTry rest with
        | some (a, b, k) => some (mkRep [] a b, 1 + k)
        | none => none
      | _ => none
    else none
  match cs with
  | c :: '[' :: rest =>
    if c = '\\' then anchor
    else
      match bracketTry rest with
      | some (a, b, k) => some (mkRep [c] a b, 2 + k)
      | none => anchor
  | _ => anchor

/-- The global-replace scan of `.replaceAll(spaceInCharacterMatchingRegex, …)`:
at each position try a match (replacing it and resuming after its end),
otherwise keep one character and advance.  Every successful match
consumes at least one character, so `cs.length` steps of fuel always
suffice; the fuel only bounds the recursion depth. -/
def scanAux : Nat → List Char → Bool → List Char
  | 0, cs, _ => cs
  | _ + 1, [], _ => []
  | fuel + 1, c :: cs, atStart =>
    match tryMatch (c :: cs) atStart with
    | some (rep, k) => rep ++ scanAux fuel (cs.drop (k - 1)) false
    | none => c :: scanAux fuel cs false

/-- JS `.replaceAll(spaceInCharacterMatchingRegex, "$1(?:[$2$3]|%20)")`
where `spaceInCharacterMatchingRegex` is
`/([^\\]|^)\[((?:\\\]|[^ ])*) ((?:\\\]|[^ ])*)\]/g`. -/
def replaceSpaceInCharacterMatching (cs : List Char) : List Char :=
  scanAux cs.length cs true

/-- The full regex-to-Apache translation (lines 157-166 of the source):
`toString().slice(1, -1)`, unescape `\/`, rewrite spaced bracket
expressions, escape remaining spaces.  The argument is the `toString()`
rendering of the `RegExp` value (`/source/`). -/
def translateRegexMatch (toStr : String) : String :=
  String.mk (escapeSpaces (replaceSpaceInCharacterMatching
    (unescapeSlashes ((toStr.data.drop 1).dropLast))))

/-! ## The `astro:build:done` directive synthesis -/

/-- The mutable state shared by the four source thunks: the `error` flag
and the `handledErrorCodes` set (kept as the list of values passed to
`.add`, in insertion order). -/
structure GenState where
  error : Bool
  handled : List Nat
deriving DecidableEq, Repr

/-- The duplicate test `code in handledErrorCodes` of the source, where
`handledErrorCodes : Set<number>`.  The JS `in` operator tests property
keys (own and inherited), not `Set` membership: a `Set` keeps its
elements in an internal slot, never as properties, so for a number
`code` the test is always `false` (the membership test the surrounding
code clearly intends would be `handledErrorCodes.has(code)`). -/
def jsInSet (_code : Nat) (_handled : List Nat) : Bool := false

/-- `route.match(/^\/([345]\d\d)$/)` followed by `parseInt(match[1])` on
character lists: the whole route must be a slash followed by exactly
three digits, the first of them 3, 4 or 5. -/
def errorPageMatchL : List Char → Option Nat
  | [s, a, b, c] =>
    if s = '/' ∧ (a = '3' ∨ a = '4' ∨ a = '5') ∧ b.isDigit ∧ c.isDigit then
      some ((a.toNat - 48) * 100 + (b.toNat - 48) * 10 + (c.toNat - 48))
    else none
  | _ => none

/-- `route.match(errorPageRegex)` with the numeric code extracted. -/
def errorPageMatch (route : String) : Option Nat :=
  errorPageMatchL route.data

/-- One iteration of the user error-page `map` (lines 99-112). -/
def userErrorStep (st : GenState) (p : ErrorPageRule) : GenState × String :=
  if st.error then (st, "")
  else if jsInSet p.code st.handled then ({ st with error := true }, "")
  else ({ st with handled := st.handled ++ [p.code] },
    "ErrorDocument " ++ toString p.code ++ " " ++ normalizeDocument p.document)

/-- `Array.prototype.map` over a list, threading the shared mutable
state through the callback in element order. -/
def mapAccum {α : Type} (f : GenState → α → GenState × String) :
    GenState → List α → GenState × List String
  | st, [] => (st, [])
  | st, x :: rest =>
    let p := f st x
    let q := mapAccum f p.1 rest
    (q.1, p.2 :: q.2)

/-- Source 4.2, the user error-page thunk:
`!error && errorPages ? errorPages.map(…) : []`. -/
def userErrorPagesSource (errorPages : Option (List ErrorPageRule))
    (st : GenState) : GenState × List String :=
  match errorPages with
  | some ps => if st.error then (st, []) else mapAccum userErrorStep st ps
  | none => (st, [])

/-- `typeof redirect === "string" ? redirect : redirect?.destination`. -/
def destinationOf : Option RedirectTarget → Option String
  | none => none
  | some (.plain s) => some s
  | some (.withDestination d) => some d

/-- The `RedirectMatch` line emitted for a generator redirect route. -/
def redirectRouteLine (route destination : String) : String :=
  "RedirectMatch 301 ^" ++ route ++ "(/(index.html)?)?$ " ++ destination

/-- The `ErrorDocument` line emitted for an auto-discovered error page:
`.html` is appended unless the route already ends with it. -/
def autoErrorLine (code : Nat) (route : String) : String :=
  "ErrorDocument " ++ toString code ++ " " ++
    (if endsWithL route.data htmlExt then route else route ++ ".html")

/-- One iteration of the `routes.reduce` callback (lines 115-146). -/
def routeStep (errorPages : Option (List ErrorPageRule)) (st : GenState)
    (acc : List String) (r : RouteData) : GenState × List String :=
  if st.error then (st, acc)
  else
    match r.type with
    | .redirect =>
      match destinationOf r.redirect with
      | some d => if d = "" then (st, acc) else (st, acc ++ [redirectRouteLine r.route d])
      | none => (st, acc)
    | .page =>
      match errorPages with
      | none =>
        match errorPageMatch r.route with
        | some code =>
          if jsInSet code st.handled then ({ st with error := true }, acc)
          else ({ st with handled := st.handled ++ [code] },
            acc ++ [autoErrorLine code r.route])
        | none => (st, acc)
      | some _ => (st, acc)
    | .other => (st, acc)

/-- Source 4.3, the generator-route thunk:
`(!error && routes.reduce(…, [])) || []`. -/
def routesSource (errorPages : Option (List ErrorPageRule))
    (routes : List RouteData) (st : GenState) : GenState × List String :=
  if st.error then (st, [])
  else routes.foldl (fun p r => routeStep errorPages p.1 p.2 r) (st, [])

/-- `code ?? 301` rendered into the template literal. -/
def renderCode : Option RedirectCode → String
  | none => "301"
  | some c => c.render

/-- One iteration of the user redirect `map` (lines 151-174).  A string
`match` is used verbatim; a `RegExp` is translated and then checked for
an embedded line break (`match.search("\n") > -1`), which is fatal. -/
def redirectStep (st : GenState) (r : RedirectRule) : GenState × String :=
  if st.error then (st, "")
  else
    match r.mtch with
    | .str s => (st, "RedirectMatch " ++ renderCode r.code ++ " " ++ s ++ " " ++ r.url)
    | .regex t =>
      let m := translateRegexMatch t
      if m.data.contains '\n' then ({ st with error := true }, "")
      else (st, "RedirectMatch " ++ renderCode r.code ++ " " ++ m ++ " " ++ r.url)

/-- Source 4.4, the user redirect thunk:
`!error && redirects ? redirects.map(…) : []`. -/
def userRedirectsSource (redirects : Option (List RedirectRule))
    (st : GenState) : GenState × List String :=
  match redirects with
  | some rs => if st.error then (st, []) else mapAccum redirectStep st rs
  | none => (st, [])

/-- Source 4.1: `customRules ?? []`. -/
def customRulesSource (customRules : Option (List String)) : List String :=
  customRules.getD []

/-- The whole `htaccess` array: the four thunks evaluated in order with
the shared state threaded through, then flattened.  Returns the final
`error` flag and the flattened lines. -/
def htaccessLines (cfg : Config) (routes : List RouteData) : Bool × List String :=
  let st0 : GenState := ⟨false, []⟩
  let l1 := customRulesSource cfg.customRules
  let p2 := userErrorPagesSource cfg.errorPages st0
  let p3 := routesSource cfg.errorPages routes p2.1
  let p4 := userRedirectsSource cfg.redirects p3.1
  (p4.1.error, l1 ++ p2.2 ++ p3.2 ++ p4.2)

/-- `htaccess.join("\n")`. -/
def joinLines : List String → String
  | [] => ""
  | [l] => l
  | l :: rest => l ++ "\n" ++ joinLines rest

/-! ## The integration lifecycle (the two hooks and the memoized switch) -/

/-- The Astro-side inputs of `astro:config:setup` that the integration
reads: whether `config.output === "server"`, and the assets directory
the adapter-specific branch resolves (adapter discovery itself is
external I/O glue). -/
structure AstroEnv where
  isServer : Bool
  resolvedDir : String

/-- The closure state of `integration`:
`let assetsDir: string | null = null; let enabled: boolean | null = true`. -/
structure IntState where
  assetsDir : Option String
  enabled : Option Bool

/-- The initial closure state.  Note that `enabled` starts as `true`,
not `null` (line 44 of the source). -/
def initState : IntState := ⟨none, some true⟩

/-- The memoization block both hooks start with:
`if (enabled === null) enabled = generateHtaccessFile === undefined ? true
: !(await …)` — note the negation applied to the resolved value. -/
def resolveEnabled (gHF : Option Bool) (memo : Option Bool) : Bool :=
  match memo with
  | some b => b
  | none =>
    match gHF with
    | none => true
    | some v => !v

/-- The `astro:config:setup` hook: resolve `enabled`, bail out when
disabled or in SSR mode, otherwise record the assets directory. -/
def configSetup (cfg : Config) (env : AstroEnv) (st : IntState) : IntState :=
  let e := resolveEnabled cfg.generateHtaccessFile st.enabled
  let st1 : IntState := ⟨st.assetsDir, some e⟩
  if !e then st1
  else if env.isServer then st1
  else ⟨some env.resolvedDir, some e⟩

/-- The `astro:build:done` hook: re-resolve `enabled`, bail out when
disabled or when no assets directory was recorded, evaluate the four
sources and — only when no fatal conflict occurred — write the file.
`some lines` is the written payload, `none` means nothing is written. -/
def buildDone (cfg : Config) (routes : List RouteData) (st : IntState) :
    Option (List String) :=
  let e := resolveEnabled cfg.generateHtaccessFile st.enabled
  if !e then none
  else
    match st.assetsDir with
    | none => none
    | some dir =>
      if dir = "" then none
      else
        let p := htaccessLines cfg routes
        if p.1 then none else some p.2

/-- One whole generation run: `astro:config:setup` followed by
`astro:build:done` on the shared closure state. -/
def runIntegration (cfg : Config) (env : AstroEnv) (routes : List RouteData) :
    Option (List String) :=
  buildDone cfg routes (configSetup cfg env initState)

/-- The text handed to `writeFile` (append mode): a blank separating
line when the file already exists, then the joined lines. -/
def writtenContent (cfg : Config) (env : AstroEnv) (routes : List RouteData)
    (fileExists : Bool) : Option String :=
  (runIntegration cfg env routes).map
    (fun lines => (if fileExists then "\n" else "") ++ joinLines lines)

/-! ## Per-source line functions (the spec's section-4 contracts)

Each source, run from a conflict-free state, contributes a list of lines
that depends only on its own input; these functions state that
contribution rule by rule, and the lemmas below prove that the stateful
pipeline produces exactly their concatenation. -/

/-- The line contributed by one user error-page rule (section 4.2). -/
def userErrorLine (p : ErrorPageRule) : String :=
  "ErrorDocument " ++ toString p.code ++ " " ++ normalizeDocument p.document

/-- All lines of the user error-page source. -/
def userErrorLines (errorPages : Option (List ErrorPageRule)) : List String :=
  (errorPages.getD []).map userErrorLine

/-- The line (if any) contributed by one generator route (section 4.3). -/
def routeLine (errorPages : Option (List ErrorPageRule)) (r : RouteData) :
    Option String :=
  match r.type with
  | .redirect =>
    match destinationOf r.redirect with
    | some d => if d = "" then none else some (redirectRouteLine r.route d)
    | none => none
  | .page =>
    match errorPages with
    | none => (errorPageMatch r.route).map (fun code => autoErrorLine code r.route)
    | some _ => none
  | .other => none

/-- All lines of the generator-route source, in generator route order. -/
def generatorLines (errorPages : Option (List ErrorPageRule))
    (routes : List RouteData) : List String :=
  routes.filterMap (routeLine errorPages)

/-- The error code a generator route claims, if any: only page routes,
and only when the user supplied no `errorPages` option at all. -/
def routeAutoCode (errorPages : Option (List ErrorPageRule)) (r : RouteData) :
    Option Nat :=
  match r.type, errorPages with
  | .page, none => errorPageMatch r.route
  | _, _ => none

/-- The match text of a user redirect rule as it appears in the output. -/
def matchText (r : RedirectRule) : String :=
  match r.mtch with
  | .str s => s
  | .regex t => translateRegexMatch t

/-- The line contributed by one user redirect rule (section 4.4). -/
def redirectLine (r : RedirectRule) : String :=
  "RedirectMatch " ++ renderCode r.code ++ " " ++ matchText r ++ " " ++ r.url

/-- All lines of the user redirect source. -/
def userRedirectLines (redirects : Option (List RedirectRule)) : List String :=
  (redirects.getD []).map redirectLine

/-- A redirect rule free of the fatal line-break conflict: a string
match always is; a regex match must contain no line break after
translation. -/
def regexLineSafe (r : RedirectRule) : Bool :=
  match r.mtch with
  | .str _ => true
  | .regex t => !((translateRegexMatch t).data.contains '\n')

/-- The whole directive list in the fixed source order of sections
4.1-4.4: custom rules, user error pages, generator-discovered lines,
user redirects. -/
def synthLines (cfg : Config) (routes : List RouteData) : List String :=
  customRulesSource cfg.customRules ++ userErrorLines cfg.errorPages ++
    generatorLines cfg.errorPages routes ++ userRedirectLines cfg.redirects

/-- Named form of the section-4.3 redirect contribution (used to state
what the generator source produces when user error pages are present). -/
def redirectOnlyLine (r : RouteData) : Option String :=
  match r.type with
  | .redirect =>
    match destinationOf r.redirect with
    | some d => if d = "" then none else some (redirectRouteLine r.route d)
    | none => none
  | _ => none

/-- What the generator source produces per route when `errorPages` is
entirely absent: redirect lines, plus an `ErrorDocument` line with
`.html` appended for every page route matching the error-page pattern. -/
def discoveredLine (r : RouteData) : Option String :=
  match r.type with
  | .page => (errorPageMatch r.route).map
      (fun code => "ErrorDocument " ++ toString code ++ " " ++ (r.route ++ ".html"))
  | .redirect => redirectOnlyLine r
  | .other => none

/-- A sample run exercising all four sources for the claim-C6 witness. -/
def sampleCfg : Config :=
  ⟨none, some [⟨404, "/errors/404"⟩],
    some [⟨some .c302, .regex "/^\\/github\\b/", "https://github.com/x"⟩],
    some ["DirectoryIndex index.html"]⟩

/-- The route table of the claim-C6 witness run. -/
def sampleRoutes : List RouteData :=
  [⟨.redirect, "/faq", some (.plain "/about_this_project")⟩,
   ⟨.page, "/about_this_project", none⟩]

/-! ## Sanity checks of the embedding on concrete inputs -/

example : normalizeDocument "/404" = "/404.html" := by rfl
example : normalizeDocument "errors//404" = "/errors/404.html" := by rfl
example : normalizeDocument "/a/../b.html" = "/b.html" := by rfl
example : translateRegexMatch "/^\\/github\\b/" = "^/github\\b" := by rfl
example : translateRegexMatch "/[a b]/" = "(?:[ab]|%20)" := by rfl
example : translateRegexMatch "/x[a b]y/" = "x(?:[ab]|%20)y" := by rfl
example : translateRegexMatch "/a b/" = "a%20b" := by rfl
example : translateRegexMatch "/\\[a b]/" = "\\[a%20b]" := by rfl
example : translateRegexMatch "/[a b][c d]/" = "(?:[ab]|%20)[c%20d]" := by rfl
example : translateRegexMatch "/[a b] [c d]/" = "(?:[ab]|%20)%20(?:[cd]|%20)" := by rfl
example : errorPageMatch "/404" = some 404 := by rfl
example : errorPageMatch "/512" = some 512 := by rfl
example : errorPageMatch "/404/" = none := by rfl
example : errorPageMatch "/204" = none := by rfl
example : errorPageMatch "404" = none := by rfl

example :
    runIntegration
      { errorPages := some [⟨404, "/errors/404"⟩],
        redirects := some [⟨some .c302, .regex "/^\\/github\\b/", "https://github.com/x"⟩] }
      ⟨false, "/out"⟩
      [⟨.redirect, "/faq", some (.plain "/about_this_project")⟩] =
    some ["ErrorDocument 404 /errors/404.html",
      "RedirectMatch 301 ^/faq(/(index.html)?)?$ /about_this_project",
      "RedirectMatch 302 ^/github\\b https://github.com/x"] := by rfl

/-! ## Helper lemmas -/

theorem endsWithL_iff (cs suffix : List Char) :
    endsWithL cs suffix = true ↔ ∃ y, cs = y ++ suffix := by
  unfold endsWithL
  rw [decide_eq_true_iff]
  constructor
  · rintro ⟨hle, hdrop⟩
    exact ⟨cs.take (cs.length - suffix.length),
      by conv_lhs => rw [← List.take_append_drop (cs.length - suffix.length) cs, hdrop]⟩
  · rintro ⟨y, rfl⟩
    constructor
    · simp [List.length_append]
    · simp [List.length_append]

theorem htmlExt_data : ".html".data = htmlExt := rfl

/-- No space character survives `escapeSpaces`. -/
theorem space_not_mem_escapeSpaces (cs : List Char) : ' ' ∉ escapeSpaces cs := by
  induction cs with
  | nil => simp [escapeSpaces]
  | cons c rest ih =>
    by_cases hc : c = ' '
    · simp [escapeSpaces, hc]
      exact fun h => absurd h ih
    · simp [escapeSpaces, hc]
      exact ⟨fun h => absurd h.symm hc, fun h => absurd h ih⟩

/-! ## State-threading lemmas -/

theorem mapAccum_userErrorStep (ps : List ErrorPageRule) :
    ∀ st : GenState, st.error = false →
    mapAccum userErrorStep st ps =
      (⟨false, st.handled ++ ps.map (fun p => p.code)⟩, ps.map userErrorLine) := by
  induction ps with
  | nil =>
    rintro ⟨e, hd⟩ h
    cases h
    simp [mapAccum]
  | cons p rest ih =>
    rintro ⟨e, hd⟩ h
    cases h
    have step : userErrorStep ⟨false, hd⟩ p =
        (⟨false, hd ++ [p.code]⟩, userErrorLine p) := by
      simp [userErrorStep, jsInSet, userErrorLine]
    simp only [mapAccum, step]
    rw [ih ⟨false, hd ++ [p.code]⟩ rfl]
    simp

theorem mapAccum_redirectStep (rs : List RedirectRule) :
    ∀ st : GenState, st.error = false →
    (∀ r ∈ rs, regexLineSafe r = true) →
    mapAccum redirectStep st rs = (st, rs.map redirectLine) := by
  induction rs with
  | nil =>
    intro st _ _
    simp [mapAccum]
  | cons r rest ih =>
    rintro ⟨e, hd⟩ h hsafe
    cases h
    have step : redirectStep ⟨false, hd⟩ r = (⟨false, hd⟩, redirectLine r) := by
      rcases r with ⟨c, m, url⟩
      cases m with
      | str s => simp [redirectStep, redirectLine, matchText]
      | regex t =>
        have hb : ((translateRegexMatch t).data.contains '\n') = false := by
          have := hsafe ⟨c, .regex t, url⟩ (by simp)
          simpa [regexLineSafe] using this
        have hb' : '\n' ∉ (translateRegexMatch t).data := by simpa using hb
        simp [redirectStep, redirectLine, matchText, hb, hb']
    simp only [mapAccum, step]
    rw [ih ⟨false, hd⟩ rfl (fun r hr => hsafe r (List.mem_cons_of_mem _ hr))]
    simp

theorem routeStep_run (ep : Option (List ErrorPageRule)) (st : GenState)
    (acc : List String) (r : RouteData) (h : st.error = false) :
    routeStep ep st acc r =
      (⟨false, st.handled ++ (routeAutoCode ep r).toList⟩,
       acc ++ (routeLine ep r).toList) := by
  obtain ⟨e, hd⟩ := st
  cases h
  rcases r with ⟨ty, route, redir⟩
  cases ty with
  | page =>
    cases ep with
    | none =>
      rcases hm : errorPageMatch route with _ | code
      · simp [routeStep, routeLine, routeAutoCode, hm]
      · simp [routeStep, routeLine, routeAutoCode, hm, jsInSet]
    | some ps => simp [routeStep, routeLine, routeAutoCode]
  | redirect =>
    rcases hdst : destinationOf redir with _ | d
    · simp [routeStep, routeLine, routeAutoCode, hdst]
    · by_cases hD : d = "" <;>
        simp [routeStep, routeLine, routeAutoCode, hdst, hD]
  | other => simp [routeStep, routeLine, routeAutoCode]

theorem routesFold_run (ep : Option (List ErrorPageRule)) (routes : List RouteData) :
    ∀ (st : GenState) (acc : List String), st.error = false →
    routes.foldl (fun p r => routeStep ep p.1 p.2 r) (st, acc) =
      (⟨false, st.handled ++ routes.filterMap (routeAutoCode ep)⟩,
       acc ++ routes.filterMap (routeLine ep)) := by
  induction routes with
  | nil =>
    rintro ⟨e, hd⟩ acc h
    cases h
    simp
  | cons r rest ih =>
    intro st acc h
    rw [List.foldl_cons, routeStep_run ep st acc r h, ih _ _ rfl]
    rcases hc : routeAutoCode ep r with _ | code <;>
      rcases hl : routeLine ep r with _ | line <;>
        simp [hc, hl, List.filterMap_cons]

theorem routesSource_run (ep : Option (List ErrorPageRule)) (routes : List RouteData)
    (st : GenState) (h : st.error = false) :
    routesSource ep routes st =
      (⟨false, st.handled ++ routes.filterMap (routeAutoCode ep)⟩,
       routes.filterMap (routeLine ep)) := by
  unfold routesSource
  rw [if_neg (by simp [h])]
  simpa using routesFold_run ep routes st [] h

theorem strData_append (s t : String) : (s ++ t).data = s.data ++ t.data := rfl

theorem joinLines_newline_count (L : List String)
    (h : ∀ l ∈ L, l.data.count '\n' = 0) (hne : L ≠ []) :
    (joinLines L).data.count '\n' = L.length - 1 := by
  induction L with
  | nil => cases hne rfl
  | cons l rest ih =>
    cases rest with
    | nil => simpa [joinLines] using h l (by simp)
    | cons l2 rest2 =>
      have h1 : joinLines (l :: l2 :: rest2) = l ++ "\n" ++ joinLines (l2 :: rest2) := rfl
      have hdata : (l ++ "\n" ++ joinLines (l2 :: rest2)).data =
          l.data ++ '\n' :: (joinLines (l2 :: rest2)).data := by
        rw [strData_append, strData_append, List.append_assoc]
        rfl
      have hl0 : l.data.count '\n' = 0 := h l (by simp)
      have hrest : (joinLines (l2 :: rest2)).data.count '\n' =
          (l2 :: rest2).length - 1 :=
        ih (fun x hx => h x (List.mem_cons_of_mem _ hx)) (by simp)
      rw [h1, hdata, List.count_append, hl0]
      simp only [List.count_cons_self, hrest, List.length_cons]
      omega

theorem userErrorPagesSource_run (ep : Option (List ErrorPageRule))
    (st : GenState) (h : st.error = false) :
    userErrorPagesSource ep st =
      (⟨false, st.handled ++ (ep.getD []).map (fun p => p.code)⟩,
       userErrorLines ep) := by
  rcases ep with _ | ps
  · obtain ⟨e, hd⟩ := st
    cases h
    simp [userErrorPagesSource, userErrorLines]
  · simp only [userErrorPagesSource, userErrorLines]
    rw [if_neg (by simp [h])]
    simpa using mapAccum_userErrorStep ps st h

theorem userRedirectsSource_run (rds : Option (List RedirectRule))
    (st : GenState) (h : st.error = false)
    (hregex : ∀ r ∈ rds.getD [], regexLineSafe r = true) :
    userRedirectsSource rds st = (st, userRedirectLines rds) := by
  rcases rds with _ | rs
  · simp [userRedirectsSource, userRedirectLines]
  · simp only [userRedirectsSource, userRedirectLines]
    rw [if_neg (by simp [h])]
    exact mapAccum_redirectStep rs st h (by simpa using hregex)

/-- Under the claim's preconditions the pipeline never raises the error
flag, and the flattened array is exactly the section-ordered
concatenation of the four sources' contributions. -/
theorem htaccessLines_run (cfg : Config) (routes : List RouteData)
    (hregex : ∀ r ∈ cfg.redirects.getD [], regexLineSafe r = true) :
    htaccessLines cfg routes = (false, synthLines cfg routes) := by
  simp only [htaccessLines]
  rw [userErrorPagesSource_run cfg.errorPages ⟨false, []⟩ rfl]
  simp only []
  rw [routesSource_run cfg.errorPages routes _ rfl]
  simp only []
  rw [userRedirectsSource_run cfg.redirects _ rfl hregex]
  simp [synthLines, customRulesSource, generatorLines]

/-! ## Claim theorems -/

/-- Claim C1: the claim states that two error-page rules sharing an HTTP
error code make the run a fatal duplicate conflict with zero lines
written.  The code tests `code in handledErrorCodes`, which is always
false on a `Set`, so the duplicate below is not detected: the run
succeeds and writes both `ErrorDocument 404` lines.  This theorem
evaluates the embedding at that failing input. -/
theorem claim_C1_duplicate_code_not_fatal :
    runIntegration { errorPages := some [⟨404, "/a"⟩, ⟨404, "/b"⟩] }
      ⟨false, "/out"⟩ [] =
    some ["ErrorDocument 404 /a.html", "ErrorDocument 404 /b.html"] := by rfl

/-- Claim C2: the claim states that any run in which a fatal conflict
(duplicate error code or embedded line break) occurs writes nothing.
A duplicate error code among auto-discovered routes never sets the
`error` flag (the `in`-on-a-`Set` test is always false), so this run —
in which the claimed duplicate conflict condition occurs — still writes
a file with both lines. -/
theorem claim_C2_duplicate_conflict_still_writes :
    runIntegration {} ⟨false, "/out"⟩
      [⟨.page, "/404", none⟩, ⟨.page, "/404", none⟩] =
    some ["ErrorDocument 404 /404.html", "ErrorDocument 404 /404.html"] := by rfl

/-- Claim C3: the claim states that a `generateHtaccessFile` resolving
to false means no lines are computed and no file is written, the
predicate being evaluated lazily once.  Because the memo `enabled` is
initialized to `true` instead of `null`, the predicate is never
consulted: with the switch resolved to `false` the run still computes
lines and writes the file. -/
theorem claim_C3_disabled_switch_still_writes :
    runIntegration { generateHtaccessFile := some false, customRules := some ["Options -Indexes"] } ⟨false, "/out"⟩ [] =
    some ["Options -Indexes"] := by rfl

/-- Claim C4 (counterexample): the claim states that the emitted status
code is the alias mapping of the rule's code, so that a `"permanent"`
rule and a `301` rule produce identical output lines.  They do not: the
code value is interpolated verbatim, and the two runs below produce
different lines. -/
theorem claim_C4_counterexample :
    runIntegration { redirects := some [⟨some .permanent, .str "^/a$", "/b"⟩] }
        ⟨false, "/out"⟩ [] = some ["RedirectMatch permanent ^/a$ /b"] ∧
    runIntegration { redirects := some [⟨some .c301, .str "^/a$", "/b"⟩] }
        ⟨false, "/out"⟩ [] = some ["RedirectMatch 301 ^/a$ /b"] ∧
    ("RedirectMatch permanent ^/a$ /b" : String) ≠ "RedirectMatch 301 ^/a$ /b" := by
  refine ⟨rfl, rfl, ?_⟩
  decide

/-- Claim C4 (amended): the status code of an emitted `RedirectMatch`
directive is the rule's code rendered verbatim — string aliases appear
as the literal words `permanent`, `temp`, `seeother`, `gone`, numeric
codes in decimal — and an omitted code defaults to `301`; Apache
accepts both spellings, but the output lines differ textually. -/
theorem claim_C4_code_rendered_verbatim (st : GenState) (c : Option RedirectCode)
    (s url : String) (h : st.error = false) :
    redirectStep st ⟨c, .str s, url⟩ =
      (st, "RedirectMatch " ++ renderCode c ++ " " ++ s ++ " " ++ url) ∧
    renderCode none = "301" ∧
    renderCode (some .permanent) = "permanent" ∧
    renderCode (some .temp) = "temp" ∧
    renderCode (some .seeother) = "seeother" ∧
    renderCode (some .gone) = "gone" ∧
    renderCode (some .c410) = "410" := by
  obtain ⟨e, hd⟩ := st
  cases h
  exact ⟨rfl, rfl, rfl, rfl, rfl, rfl, rfl⟩

theorem claim_C4_code_rendered_verbatim_witness :
    (⟨false, []⟩ : GenState).error = false ∧
    redirectStep ⟨false, []⟩ ⟨none, .str "^/x$", "/y"⟩ =
      (⟨false, []⟩, "RedirectMatch " ++ renderCode none ++ " " ++ "^/x$" ++ " " ++ "/y") :=
  ⟨rfl, (claim_C4_code_rendered_verbatim ⟨false, []⟩ none "^/x$" "/y" rfl).1⟩

/-- Claim C5: the regex-to-Apache translation maps `/^\/github\b/` to
`^/github\b` (delimiters stripped, escaped slashes unescaped, nothing
else changed); a pattern containing the bracket expression `[a b]`
yields output containing `(?:[ab]|%20)`; and every remaining raw space
becomes `%20` — in fact no space character at all survives translation. -/
theorem claim_C5_regex_translation :
    translateRegexMatch "/^\\/github\\b/" = "^/github\\b" ∧
    translateRegexMatch "/[a b]/" = "(?:[ab]|%20)" ∧
    translateRegexMatch "/x[a b]y/" = "x(?:[ab]|%20)y" ∧
    translateRegexMatch "/a b/" = "a%20b" ∧
    ∀ t : String, ' ' ∉ (translateRegexMatch t).data := by
  refine ⟨rfl, rfl, rfl, rfl, fun t => ?_⟩
  exact space_not_mem_escapeSpaces _

/-- Claim C6: for all valid inputs with no duplicate error codes and no
embedded line breaks, the run writes the section-ordered concatenation
of the four sources' accepted lines, its length is the sum of the four
contributions, and joining with newline separators yields a text with
exactly one line per accepted entry. -/
theorem claim_C6_order_and_count (cfg : Config) (env : AstroEnv)
    (routes : List RouteData) (hserver : env.isServer = false)
    (hdir : env.resolvedDir ≠ "")
    (_hnodup : ((cfg.errorPages.getD []).map (fun p => p.code) ++
      routes.filterMap (routeAutoCode cfg.errorPages)).Nodup)
    (hregex : ∀ r ∈ cfg.redirects.getD [], regexLineSafe r = true) :
    runIntegration cfg env routes = some (synthLines cfg routes) ∧
    (synthLines cfg routes).length =
      (customRulesSource cfg.customRules).length +
      (userErrorLines cfg.errorPages).length +
      (generatorLines cfg.errorPages routes).length +
      (userRedirectLines cfg.redirects).length ∧
    ((∀ l ∈ synthLines cfg routes, l.data.count '\n' = 0) →
      synthLines cfg routes ≠ [] →
      (joinLines (synthLines cfg routes)).data.count '\n' + 1 =
        (synthLines cfg routes).length) := by
  refine ⟨?_, ?_, ?_⟩
  · obtain ⟨srv, dir⟩ := env
    cases hserver
    have hdir' : dir ≠ "" := hdir
    show buildDone cfg routes (configSetup cfg ⟨false, dir⟩ initState) = _
    have hsetup : configSetup cfg ⟨false, dir⟩ initState = ⟨some dir, some true⟩ := by
      simp [configSetup, initState, resolveEnabled]
    rw [hsetup]
    simp [buildDone, resolveEnabled, hdir', htaccessLines_run cfg routes hregex]
  · simp [synthLines, List.length_append]
    omega
  · intro hfree hne
    have hcount := joinLines_newline_count _ hfree hne
    have hpos : 0 < (synthLines cfg routes).length := List.length_pos.mpr hne
    omega

theorem claim_C6_order_and_count_witness :
    ((⟨false, "/out"⟩ : AstroEnv).isServer = false ∧
      (⟨false, "/out"⟩ : AstroEnv).resolvedDir ≠ "" ∧
      ((sampleCfg.errorPages.getD []).map (fun p => p.code) ++
        sampleRoutes.filterMap (routeAutoCode sampleCfg.errorPages)).Nodup ∧
      (∀ r ∈ sampleCfg.redirects.getD [], regexLineSafe r = true)) ∧
    runIntegration sampleCfg ⟨false, "/out"⟩ sampleRoutes =
      some (synthLines sampleCfg sampleRoutes) :=
  ⟨⟨rfl, by decide, by decide, by decide⟩,
    (claim_C6_order_and_count sampleCfg ⟨false, "/out"⟩ sampleRoutes rfl
      (by decide) (by decide) (by decide)).1⟩

theorem errorPageMatchL_length (cs : List Char) (code : Nat)
    (h : errorPageMatchL cs = some code) : cs.length = 4 := by
  rcases cs with _ | ⟨a, _ | ⟨b, _ | ⟨c, _ | ⟨d, _ | ⟨e, t⟩⟩⟩⟩⟩ <;>
    first
    | rfl
    | simp [errorPageMatchL] at h

/-- A route matched by the error-page pattern has exactly four
characters, so it never ends in `.html` and the `.html` suffix is
always appended. -/
theorem autoErrorLine_of_match (route : String) (code : Nat)
    (h : errorPageMatch route = some code) :
    autoErrorLine code route =
      "ErrorDocument " ++ toString code ++ " " ++ (route ++ ".html") := by
  have hlen : route.data.length = 4 := errorPageMatchL_length _ _ h
  have hend : endsWithL route.data htmlExt = false := by
    simp [endsWithL, htmlExt, hlen]
  simp [autoErrorLine, hend]

theorem routeLine_some (ps : List ErrorPageRule) (r : RouteData) :
    routeLine (some ps) r = redirectOnlyLine r := by
  rcases r with ⟨ty, route, redir⟩
  cases ty <;> simp [routeLine, redirectOnlyLine]

theorem routeLine_none (r : RouteData) :
    routeLine none r = discoveredLine r := by
  rcases r with ⟨ty, route, redir⟩
  cases ty with
  | page =>
    simp only [routeLine, discoveredLine]
    rcases hm : errorPageMatch route with _ | code
    · simp
    · simp [autoErrorLine_of_match route code hm]
  | redirect => rfl
  | other => rfl

/-- Claim C7: automatic error-page discovery runs exactly when the
`errorPages` option is entirely absent.  With `errorPages` supplied —
even as an empty list — the generator source contributes redirect lines
only; with it absent, every page route matching the one-segment
3xx/4xx/5xx pattern additionally contributes an `ErrorDocument` line
with `.html` appended to the route. -/
theorem claim_C7_auto_discovery_iff_absent (routes : List RouteData)
    (st : GenState) (ps : List ErrorPageRule) (h : st.error = false) :
    (routesSource (some ps) routes st).2 = routes.filterMap redirectOnlyLine ∧
    (routesSource none routes st).2 = routes.filterMap discoveredLine := by
  have h1 : routeLine (some ps) = redirectOnlyLine := funext (routeLine_some ps)
  have h2 : routeLine (none : Option (List ErrorPageRule)) = discoveredLine :=
    funext routeLine_none
  constructor
  · rw [routesSource_run _ _ _ h, ← h1]
  · rw [routesSource_run _ _ _ h, ← h2]

theorem claim_C7_auto_discovery_iff_absent_witness :
    (⟨false, []⟩ : GenState).error = false ∧
    ((routesSource (some []) [⟨.page, "/404", none⟩] ⟨false, []⟩).2 =
        [(⟨.page, "/404", none⟩ : RouteData)].filterMap redirectOnlyLine ∧
      (routesSource none [⟨.page, "/404", none⟩] ⟨false, []⟩).2 =
        [(⟨.page, "/404", none⟩ : RouteData)].filterMap discoveredLine) :=
  ⟨rfl, claim_C7_auto_discovery_iff_absent [⟨.page, "/404", none⟩] ⟨false, []⟩ [] rfl⟩

/-! ## Idempotence of the document-path normalization (claim C8) -/

theorem splitSlash_ne_nil (cs : List Char) : splitSlash cs ≠ [] := by
  induction cs with
  | nil => simp [splitSlash]
  | cons c rest ih =>
    by_cases hc : c = '/'
    · simp [splitSlash, hc]
    · rcases hsp : splitSlash rest with _ | ⟨s, ss⟩
      · exact absurd hsp ih
      · simp [splitSlash, hc, hsp]

theorem splitSlash_no_slash (cs : List Char) (h : '/' ∉ cs) : splitSlash cs = [cs] := by
  induction cs with
  | nil => rfl
  | cons c rest ih =>
    have hc : c ≠ '/' := by
      intro hh
      exact h (by rw [hh]; exact List.mem_cons_self _ _)
    have hr : splitSlash rest = [rest] := ih (fun hm => h (List.mem_cons_of_mem _ hm))
    simp [splitSlash, hc, hr]

theorem mem_splitSlash_no_slash (cs : List Char) :
    ∀ s ∈ splitSlash cs, '/' ∉ s := by
  induction cs with
  | nil =>
    intro s hs
    simp [splitSlash] at hs
    simp [hs]
  | cons c rest ih =>
    intro s hs
    by_cases hc : c = '/'
    · simp [splitSlash, hc] at hs
      rcases hs with rfl | hs
      · simp
      · exact ih s hs
    · rcases hsp : splitSlash rest with _ | ⟨s0, ss⟩
      · exact absurd hsp (splitSlash_ne_nil rest)
      · simp [splitSlash, hc, hsp] at hs
        rcases hs with rfl | hs
        · intro hm
          rcases List.mem_cons.mp hm with h1 | h1
          · exact hc h1.symm
          · exact ih s0 (by rw [hsp]; exact List.mem_cons_self _ _) h1
        · exact ih s (by rw [hsp]; exact List.mem_cons_of_mem _ hs)

theorem splitSlash_append_suffix (t : List Char) (ht : '/' ∉ t) :
    ∀ y : List Char, ∃ pre l0, splitSlash (y ++ t) = pre ++ [l0 ++ t] := by
  intro y
  induction y with
  | nil => exact ⟨[], [], by simp [splitSlash_no_slash t ht]⟩
  | cons c y' ih =>
    obtain ⟨pre', l0', hsp⟩ := ih
    by_cases hc : c = '/'
    · exact ⟨[] :: pre', l0', by simp [splitSlash, hc, hsp]⟩
    · cases pre' with
      | nil =>
        refine ⟨[], c :: l0', ?_⟩
        have hone : splitSlash (y' ++ t) = [l0' ++ t] := by simpa using hsp
        simp [splitSlash, hc, hone]
      | cons p ps =>
        refine ⟨(c :: p) :: ps, l0', ?_⟩
        simp only [List.cons_append] at hsp ⊢
        simp [splitSlash, hc, hsp]

theorem resolveSegs_append_keep (l : List Char) (hl1 : l ≠ []) (hl2 : l ≠ ['.'])
    (hl3 : l ≠ ['.', '.']) :
    ∀ segs acc : List (List Char),
      ∃ pre2, resolveSegs (segs ++ [l]) acc = pre2 ++ [l] := by
  intro segs
  induction segs with
  | nil =>
    intro acc
    refine ⟨acc.reverse, ?_⟩
    have hcond : ¬(l = [] ∨ l = ['.']) := by simp [hl1, hl2]
    simp [resolveSegs, hcond, hl3]
  | cons s segs' ih =>
    intro acc
    by_cases h1 : s = [] ∨ s = ['.']
    · obtain ⟨pre2, hp⟩ := ih acc
      exact ⟨pre2, by simp only [List.cons_append]; simp [resolveSegs, h1]; exact hp⟩
    · by_cases h2 : s = ['.', '.']
      · obtain ⟨pre2, hp⟩ := ih acc.tail
        exact ⟨pre2, by simp only [List.cons_append]; simp [resolveSegs, h1, h2]; exact hp⟩
      · obtain ⟨pre2, hp⟩ := ih (s :: acc)
        exact ⟨pre2, by simp only [List.cons_append]; simp [resolveSegs, h1, h2]; exact hp⟩

theorem resolveSegs_clean :
    ∀ segs acc : List (List Char),
      (∀ s ∈ segs, '/' ∉ s) → (∀ s ∈ acc, CleanSeg s) →
      ∀ s ∈ resolveSegs segs acc, CleanSeg s := by
  intro segs
  induction segs with
  | nil =>
    intro acc _ hacc s hs
    simp [resolveSegs] at hs
    exact hacc s hs
  | cons s0 segs' ih =>
    intro acc hsegs hacc s hs
    by_cases h1 : s0 = [] ∨ s0 = ['.']
    · simp [resolveSegs, h1] at hs
      exact ih acc (fun x hx => hsegs x (List.mem_cons_of_mem _ hx)) hacc s hs
    · by_cases h2 : s0 = ['.', '.']
      · simp [resolveSegs, h1, h2] at hs
        exact ih acc.tail (fun x hx => hsegs x (List.mem_cons_of_mem _ hx))
          (fun x hx => hacc x (List.mem_of_mem_tail hx)) s hs
      · simp [resolveSegs, h1, h2] at hs
        refine ih _ (fun x hx => hsegs x (List.mem_cons_of_mem _ hx)) ?_ s hs
        intro x hx
        rcases List.mem_cons.mp hx with rfl | hx'
        · obtain ⟨h1a, h1b⟩ := not_or.mp h1
          exact ⟨h1a, h1b, h2, hsegs x (List.mem_cons_self _ _)⟩
        · exact hacc x hx'

theorem resolveSegs_all_keep :
    ∀ segs : List (List Char),
      (∀ s ∈ segs, s ≠ [] ∧ s ≠ ['.'] ∧ s ≠ ['.', '.']) →
      ∀ acc, resolveSegs segs acc = acc.reverse ++ segs := by
  intro segs
  induction segs with
  | nil => intro _ acc; simp [resolveSegs]
  | cons s segs' ih =>
    intro h acc
    obtain ⟨ha, hb, hc⟩ := h s (List.mem_cons_self _ _)
    have hcond : ¬(s = [] ∨ s = ['.']) := by simp [ha, hb]
    rw [resolveSegs, if_neg hcond, if_neg hc,
      ih (fun x hx => h x (List.mem_cons_of_mem _ hx)) (s :: acc)]
    simp

theorem joinSegs_cons (s : List Char) (rest : List (List Char)) (h : rest ≠ []) :
    joinSegs (s :: rest) = s ++ '/' :: joinSegs rest := by
  cases rest with
  | nil => exact absurd rfl h
  | cons a l => rfl

theorem joinSegs_append_last (pre : List (List Char)) (l : List Char) :
    ∃ b0, joinSegs (pre ++ [l]) = b0 ++ l := by
  induction pre with
  | nil => exact ⟨[], by simp [joinSegs]⟩
  | cons s pre' ih =>
    obtain ⟨b0, hb⟩ := ih
    refine ⟨s ++ '/' :: b0, ?_⟩
    rw [List.cons_append, joinSegs_cons s _ (by simp), hb]
    simp

theorem splitSlash_append_slashCons (s : List Char) (h : '/' ∉ s) :
    ∀ cs, splitSlash (s ++ '/' :: cs) = s :: splitSlash cs := by
  induction s with
  | nil => intro cs; simp [splitSlash]
  | cons c s' ih =>
    intro cs
    have hc : c ≠ '/' := by
      intro hh
      exact h (by rw [hh]; exact List.mem_cons_self _ _)
    have hr := ih (fun hm => h (List.mem_cons_of_mem _ hm)) cs
    simp [splitSlash, hc, hr]

theorem splitSlash_joinSegs (segs : List (List Char)) (hne : segs ≠ [])
    (hclean : ∀ s ∈ segs, CleanSeg s) :
    splitSlash (joinSegs segs) = segs := by
  induction segs with
  | nil => exact absurd rfl hne
  | cons s rest ih =>
    cases rest with
    | nil =>
      have hns := (hclean s (List.mem_cons_self _ _)).2.2.2
      simp [joinSegs, splitSlash_no_slash s hns]
    | cons s2 rest2 =>
      rw [joinSegs_cons s _ (by simp),
        splitSlash_append_slashCons s ((hclean s (List.mem_cons_self _ _)).2.2.2),
        ih (by simp) (fun x hx => hclean x (List.mem_cons_of_mem _ hx))]

/-- The heart of claim C8: a path ending in `.html` normalizes to an
absolute, fully resolved path still ending in `.html`, and normalizing
again is the identity on such a result. -/
theorem posixJoinRoot_html (x : List Char) (hx : ∃ y, x = y ++ htmlExt) :
    (∃ z, posixJoinRoot x = z ++ htmlExt) ∧
    posixJoinRoot (posixJoinRoot x) = posixJoinRoot x := by
  obtain ⟨y, rfl⟩ := hx
  have hslash : '/' ∉ htmlExt := by decide
  have hxne : y ++ htmlExt ≠ [] := by simp [htmlExt]
  obtain ⟨pre, l0, hsp⟩ := splitSlash_append_suffix htmlExt hslash y
  have hlne : l0 ++ htmlExt ≠ [] := by simp [htmlExt]
  have hllen : (l0 ++ htmlExt).length = l0.length + 5 := by simp [htmlExt]
  have hl2 : l0 ++ htmlExt ≠ ['.'] := by
    intro hcon
    have := congrArg List.length hcon
    rw [hllen] at this
    simp at this
  have hl3 : l0 ++ htmlExt ≠ ['.', '.'] := by
    intro hcon
    have := congrArg List.length hcon
    rw [hllen] at this
    simp at this
  obtain ⟨pre2, hres⟩ := resolveSegs_append_keep (l0 ++ htmlExt) hlne hl2 hl3 pre []
  obtain ⟨b0, hjoin⟩ := joinSegs_append_last pre2 (l0 ++ htmlExt)
  have hcleanres : ∀ s ∈ pre2 ++ [l0 ++ htmlExt], CleanSeg s := by
    rw [← hres]
    refine resolveSegs_clean _ _ ?_ (by simp)
    intro s hs
    exact mem_splitSlash_no_slash (y ++ htmlExt) s (by rw [hsp]; exact hs)
  have hskip : ∀ (ss : List (List Char)) (acc : List (List Char)),
      resolveSegs ([] :: ss) acc = resolveSegs ss acc := by
    intro ss acc
    simp [resolveSegs]
  have hsplit0 : splitSlash ('/' :: '/' :: (y ++ htmlExt)) =
      [] :: [] :: splitSlash (y ++ htmlExt) := by
    simp [splitSlash]
  have hlast1 : ('/' :: '/' :: (y ++ htmlExt)).getLast? = some 'l' := by
    rw [show ('/' :: '/' :: (y ++ htmlExt)) = ['/', '/'] ++ (y ++ htmlExt) from rfl,
      List.getLast?_append, List.getLast?_append]
    simp [htmlExt]
  have hbody1 : posixNormalizeAbs ('/' :: '/' :: (y ++ htmlExt)) =
      '/' :: (b0 ++ (l0 ++ htmlExt)) := by
    simp only [posixNormalizeAbs]
    rw [hsplit0, hskip, hskip, hsp, hres, hjoin, hlast1]
    rw [if_neg (by simp [htmlExt]), if_neg (by simp)]
  have hroot1 : posixJoinRoot (y ++ htmlExt) = '/' :: (b0 ++ (l0 ++ htmlExt)) := by
    rw [posixJoinRoot, if_neg hxne]
    exact hbody1
  constructor
  · exact ⟨'/' :: b0 ++ l0, by rw [hroot1]; simp⟩
  · rw [hroot1]
    have hinne : ('/' : Char) :: (b0 ++ (l0 ++ htmlExt)) ≠ [] := by simp
    rw [posixJoinRoot, if_neg hinne]
    have hsplitb : splitSlash ('/' :: '/' :: '/' :: (b0 ++ (l0 ++ htmlExt))) =
        [] :: [] :: [] :: splitSlash (b0 ++ (l0 ++ htmlExt)) := by
      simp [splitSlash]
    have hsplitbody : splitSlash (b0 ++ (l0 ++ htmlExt)) = pre2 ++ [l0 ++ htmlExt] := by
      rw [← hjoin]
      exact splitSlash_joinSegs _ (by simp) hcleanres
    have hkeep : resolveSegs (pre2 ++ [l0 ++ htmlExt]) [] = pre2 ++ [l0 ++ htmlExt] := by
      have := resolveSegs_all_keep (pre2 ++ [l0 ++ htmlExt])
        (fun s hs => ⟨(hcleanres s hs).1, (hcleanres s hs).2.1, (hcleanres s hs).2.2.1⟩) []
      simpa using this
    have hlast2 : ('/' :: '/' :: '/' :: (b0 ++ (l0 ++ htmlExt))).getLast? = some 'l' := by
      rw [show ('/' :: '/' :: '/' :: (b0 ++ (l0 ++ htmlExt))) =
          ['/', '/', '/'] ++ (b0 ++ (l0 ++ htmlExt)) from rfl,
        List.getLast?_append, List.getLast?_append, List.getLast?_append]
      simp [htmlExt]
    simp only [posixNormalizeAbs]
    rw [hsplitb, hskip, hskip, hskip, hsplitbody, hkeep, hjoin, hlast2]
    rw [if_neg (by simp [htmlExt]), if_neg (by simp)]

/-- Claim C8: the document-path normalization of the user error-page
source is idempotent: normalizing twice equals normalizing once, and
in particular `"/404"` normalizes to `"/404.html"`, which normalizes
to itself. -/
theorem claim_C8_normalization_idempotent :
    normalizeDocument "/404" = "/404.html" ∧
    ∀ d : String, normalizeDocument (normalizeDocument d) = normalizeDocument d := by
  refine ⟨rfl, fun d => ?_⟩
  unfold normalizeDocument
  set x := if endsWithL d.data htmlExt then d.data else d.data ++ htmlExt with hxdef
  have hx : ∃ y, x = y ++ htmlExt := by
    rw [hxdef]
    split
    · next h => exact (endsWithL_iff _ _).mp h
    · exact ⟨d.data, rfl⟩
  obtain ⟨⟨z, hz⟩, hidem⟩ := posixJoinRoot_html x hx
  have hends : endsWithL (String.mk (posixJoinRoot x)).data htmlExt = true := by
    show endsWithL (posixJoinRoot x) htmlExt = true
    rw [hz]
    exact (endsWithL_iff _ _).mpr ⟨z, rfl⟩
  simp only [hends, if_true]
  show String.mk (posixJoinRoot (posixJoinRoot x)) = String.mk (posixJoinRoot x)
  rw [hidem]

/-- Claim C9: the generated output is identical for every value of the
`generateHtaccessFile` option.  `enabled` is initialized to `true`
rather than `null`, so the memoization guard never fires, the predicate
is never consulted, and two runs differing only in that option agree. -/
theorem claim_C9_enable_switch_noninterference (cfg : Config) (env : AstroEnv)
    (routes : List RouteData) (g1 g2 : Option Bool) :
    runIntegration { cfg with generateHtaccessFile := g1 } env routes =
    runIntegration { cfg with generateHtaccessFile := g2 } env routes := by
  obtain ⟨srv, dir⟩ := env
  cases srv <;> rfl

/-- Claim C10: a user redirect whose `match` is a literal string is
emitted verbatim — no translation and no line-break check — so a string
match containing a line break does not trigger the fatal
invalid-pattern conflict and the run still succeeds, producing a line
with an embedded line break. -/
theorem claim_C10_string_match_verbatim (st : GenState) (c : Option RedirectCode)
    (s url : String) (h : st.error = false) :
    redirectStep st ⟨c, .str s, url⟩ =
      (st, "RedirectMatch " ++ renderCode c ++ " " ++ s ++ " " ++ url) ∧
    runIntegration { redirects := some [⟨none, .str "a\nb", "/u"⟩] }
      ⟨false, "/out"⟩ [] = some ["RedirectMatch 301 a\nb /u"] ∧
    ("RedirectMatch 301 a\nb /u").data.contains '\n' = true := by
  obtain ⟨e, hd⟩ := st
  cases h
  exact ⟨rfl, rfl, rfl⟩

theorem claim_C10_string_match_verbatim_witness :
    (⟨false, []⟩ : GenState).error = false ∧
    redirectStep ⟨false, []⟩ ⟨none, .str "x\ny", "/u"⟩ =
      (⟨false, []⟩, "RedirectMatch " ++ renderCode none ++ " " ++ "x\ny" ++ " " ++ "/u") :=
  ⟨rfl, (claim_C10_string_match_verbatim ⟨false, []⟩ none "x\ny" "/u" rfl).1⟩

end AstroHtaccess
